import Mathlib

/-!
Verification of the RAG retrieval pipeline of the CustomersAI-agent
repository against its specification.

The embedded code comes from the Python snippets in
`src/.agent/System/rag_pipeline.md` (functions `generate_query_variants`,
`search_qdrant`, `multi_query_search`, `rerank_with_llm`, `rerank_by_score`,
`chunk_text`), from `src/unnamed/part_001` (functions `search_knowledge`,
`format_rag_context`, `handle_message`) and from the embeddable chat widget
in `src/unnamed/part_002` (method `sendMessage`).

Modelling conventions:
- Python strings are `String` or, for the chunker, `List Char` so that
  slicing is explicit.
- Python floats (similarity scores) are modelled as `ℚ`; only their
  ordering is relevant to the embedded code.
- Python exceptions are modelled with `Except String`; a call into an
  external collaborator (LLM, JSON parsing of its output, the network)
  is passed in as an explicit argument holding its outcome.
- The stable Python `sorted(..., key=..., reverse=True)` is modelled by
  `List.insertionSort` with the reflexive descending-score relation,
  which places an element before the first existing element of
  less-or-equal key, exactly the stable descending order.
-/

/-- Metadata payload of an indexed chunk, as stored in the Qdrant payload
and read by `format_rag_context` (keys `url` and `filename`). A missing
key is `none`; a Python `dict.get` returning an empty string is `some`
of the empty string. -/
structure Metadata where
  url : Option String
  filename : Option String
deriving DecidableEq

/-- Point stored in the Qdrant collection `knowledge_base`: its id and the
payload fields from the collection schema of `rag_pipeline.md`
(`tenant_id`, `source_type`, `source_id`, `content`, `metadata`). The
embedding vector itself is abstracted away: only the similarity score it
induces matters, and that is passed to search as a function. -/
structure QdrantPoint where
  id : String
  tenant_id : String
  source_type : String
  source_id : String
  content : String
  metadata : Metadata
deriving DecidableEq

/-- Search hit returned by the Qdrant client: a stored point together with
its similarity score for the current query vector. -/
structure ScoredPoint where
  point : QdrantPoint
  score : ℚ
deriving DecidableEq

/-- Retrieval candidate as built by `search_qdrant` in `rag_pipeline.md`:
the dict `{id, content, score, source_type, metadata}`. -/
structure Candidate where
  id : String
  content : String
  score : ℚ
  source_type : String
  metadata : Metadata
deriving DecidableEq

/-- Retrieval candidate as built by `search_knowledge` in
`src/unnamed/part_001`: the dict `{content, score, source_type, metadata}`
(note: no id field). -/
structure KCandidate where
  content : String
  score : ℚ
  source_type : String
  metadata : Metadata
deriving DecidableEq

/-- Descending-by-key comparison used to model the Python
`sorted(..., key=key, reverse=True)`: `a` may stay before `b` when its key
is at least that of `b`. -/
def scoreGE (key : α → ℚ) (a b : α) : Prop := key b ≤ key a

instance (key : α → ℚ) : DecidableRel (scoreGE key) :=
  fun a b => inferInstanceAs (Decidable (key b ≤ key a))

/-- Model of the stable Python `sorted(l, key=key, reverse=True)`.
`List.insertionSort` inserts each element before the first element whose
key is less than or equal to its own, which reproduces the CPython stable
descending sort. -/
def pySortDesc (key : α → ℚ) (l : List α) : List α :=
  List.insertionSort (scoreGE key) l

/-- Modelled from the spec (§4.3 Vector Index): the external Qdrant
service and its filtered nearest-neighbour search, not code of this
repository. It returns at most `limit` stored points matching the filter,
sorted by descending similarity score; `sim` is the similarity score the
query vector induces on each stored point. -/
def qdrant_client_search (index : List QdrantPoint) (sim : QdrantPoint → ℚ)
    (flt : QdrantPoint → Bool) (limit : Nat) : List ScoredPoint :=
  (pySortDesc (fun h => h.score)
    ((index.filter flt).map (fun p => ⟨p, sim p⟩))).take limit

/-- Embedding of `search_qdrant` from `rag_pipeline.md` (lines 142-174):
searches the collection with the filter
`tenant_id = <tenant_id> AND source_type IN ["document", "website"]` and
maps each hit to a result dict. The composite of `embed_text` and cosine
similarity is abstracted as `sim : String → QdrantPoint → ℚ`. -/
def search_qdrant (sim : String → QdrantPoint → ℚ) (index : List QdrantPoint)
    (query tenant_id : String) (top_k : Nat) : List Candidate :=
  let results := qdrant_client_search index (sim query)
    (fun p => p.tenant_id == tenant_id &&
      (p.source_type == ("document") || p.source_type == ("website")))
    top_k
  results.map (fun h =>
    { id := h.point.id, content := h.point.content, score := h.score,
      source_type := h.point.source_type, metadata := h.point.metadata })

/-- Embedding of `search_knowledge` from `src/unnamed/part_001` (lines
413-443): searches the collection with the filter
`tenant_id = <tenant_id>` only, and maps each hit to a result dict
without an id field. -/
def search_knowledge (sim : String → QdrantPoint → ℚ) (index : List QdrantPoint)
    (query tenant_id : String) (top_k : Nat) : List KCandidate :=
  let results := qdrant_client_search index (sim query)
    (fun p => p.tenant_id == tenant_id) top_k
  results.map (fun h =>
    { content := h.point.content, score := h.score,
      source_type := h.point.source_type, metadata := h.point.metadata })

/-- Model of one step of the Python dict comprehension
`{chunk["id"]: chunk for chunk in all_chunks}`: inserting `c` into the
accumulated dict keeps the position of an existing key but overwrites its
value, and appends a new key at the end. -/
def dictInsert (acc : List Candidate) (c : Candidate) : List Candidate :=
  if acc.any (fun x => x.id == c.id) then
    acc.map (fun x => if x.id == c.id then c else x)
  else acc ++ [c]

/-- Model of the whole dict comprehension keyed by `chunk["id"]`, followed
by `.values()`: keys in first-occurrence order, each carrying the value of
its last occurrence. -/
def dedupById (l : List Candidate) : List Candidate :=
  l.foldl dictInsert []

/-- Embedding of `multi_query_search` from `rag_pipeline.md` (lines
179-203): search each query variant with `top_k=5`, concatenate,
deduplicate by chunk id with a dict comprehension, sort by score
descending, keep the top 12. -/
def multi_query_search (sim : String → QdrantPoint → ℚ)
    (index : List QdrantPoint) (queries : List String)
    (tenant_id : String) : List Candidate :=
  let all_chunks := (queries.map (fun q => search_qdrant sim index q tenant_id 5)).flatten
  let unique_chunks := dedupById all_chunks
  (pySortDesc (fun c => c.score) unique_chunks).take 12

/-- Embedding of `generate_query_variants` from `rag_pipeline.md` (lines
84-100). The LLM call and the subsequent `json.loads(response.content)`
are abstracted as `parsed`, the outcome of parsing the model output as a
list of strings (`Except.error` models the raised `JSONDecodeError`).
The function has no `try`/`except`: a parse failure propagates, and on
success it returns `[original_query] + variants`. -/
def generate_query_variants (original_query : String)
    (parsed : Except String (List String)) : Except String (List String) :=
  match parsed with
  | .error e => .error e
  | .ok variants => .ok (original_query :: variants)

/-- Embedding of `rerank_by_score` from `rag_pipeline.md` (lines 251-253):
`sorted(chunks, key=lambda x: x["score"], reverse=True)[:top_k]`. -/
def rerank_by_score (chunks : List Candidate) (top_k : Nat) : List Candidate :=
  (pySortDesc (fun c => c.score) chunks).take top_k

/-- Model of Python list indexing `l[i]`: negative indices address from the
end, and an index out of range raises `IndexError`. -/
def pyGet (l : List α) (i : Int) : Except String α :=
  if h : 0 ≤ i ∧ i < (l.length : Int) then
    .ok (l.get ⟨i.toNat, by omega⟩)
  else if h2 : -(l.length : Int) ≤ i ∧ i < 0 then
    .ok (l.get ⟨((l.length : Int) + i).toNat, by omega⟩)
  else .error ("IndexError")

/-- Model of the Python list comprehension `[chunks[i] for i in idxs]`:
elements are looked up left to right and the first out-of-range index
raises. -/
def pyGetAll (chunks : List Candidate) : List Int → Except String (List Candidate)
  | [] => .ok []
  | i :: is =>
    match pyGet chunks i, pyGetAll chunks is with
    | .error e, _ => .error e
    | .ok _, .error e => .error e
    | .ok c, .ok cs => .ok (c :: cs)

/-- Embedding of `rerank_with_llm` from `rag_pipeline.md` (lines 218-246).
The LLM call and `json.loads(response.content)` are abstracted as
`parsed`, the outcome of parsing the model output as a list of integers.
The function performs no validation and has no fallback: a parse failure
propagates, and the comprehension
`[chunks[i] for i in selected_indices[:top_k]]` raises `IndexError` on an
out-of-range index and happily repeats duplicate indices. -/
def rerank_with_llm (chunks : List Candidate) (top_k : Nat)
    (parsed : Except String (List Int)) : Except String (List Candidate) :=
  match parsed with
  | .error e => .error e
  | .ok selected_indices => pyGetAll chunks (selected_indices.take top_k)

/-- Model of `chunk["metadata"].get("url") or chunk["metadata"].get("filename", "Unknown")`
from `format_rag_context` in `src/unnamed/part_001`: the Python `or` falls
through on a missing key and on an empty string. -/
def sourceLabel (m : Metadata) : String :=
  match m.url with
  | some u => if u = ("") then m.filename.getD ("Unknown") else u
  | none => m.filename.getD ("Unknown")

/-- Block built for the i-th chunk (1-based) by `format_rag_context`:
`Source <i>: <source>` followed by a newline and the chunk content. -/
def contextBlock (i : Nat) (c : KCandidate) : String :=
  ("Source ") ++ toString i ++ (": ") ++ sourceLabel c.metadata ++ ("\n") ++ c.content

/-- Loop of `format_rag_context`: `for i, chunk in enumerate(chunks, 1)`
appending one block per chunk. -/
def contextParts : Nat → List KCandidate → List String
  | _, [] => []
  | i, c :: rest => contextBlock i c :: contextParts (i + 1) rest

/-- Separator joining the context blocks. -/
def contextSep : String := "\n\n---\n\n"

/-- Embedding of `format_rag_context` from `src/unnamed/part_001` (lines
445-455): empty input returns the empty string, otherwise the enumerated
blocks are joined with `"\n\n---\n\n"`. -/
def format_rag_context (chunks : List KCandidate) : String :=
  if chunks.isEmpty then ("") else
    String.intercalate contextSep (contextParts 1 chunks)

/-- Request body of `POST /api/v1/support/message` as used by
`handle_message` in `src/unnamed/part_001`. -/
structure MessageRequest where
  content : String
  tenant_id : String
deriving DecidableEq

/-- Helper deciding whether `pat` occurs at the start of `l`. -/
def startsWithChars : List Char → List Char → Bool
  | _, [] => true
  | [], _ :: _ => false
  | c :: cs, d :: ds => c == d && startsWithChars cs ds

/-- Model of the Python substring test `needle in haystack` on the
character lists of the two strings. -/
def containsSub (pat : List Char) : List Char → Bool
  | [] => startsWithChars [] pat
  | c :: cs => startsWithChars (c :: cs) pat || containsSub pat cs

/-- Model of the Python `str.lower()` as a character map (ASCII lowering,
which covers the two keywords the handler tests). -/
def pyLower (s : String) : List Char :=
  s.toList.map Char.toLower

/-- Embedding of `handle_message` from `src/unnamed/part_001` (lines
758-780). The two `save_message`/`save_conversation` database writes are
side effects the claims do not touch and are omitted. The LLM is
abstracted as a total function from (system prompt, user content) to the
reply; the knowledge search, which can fail when the vector index is
unreachable, is passed in as `searchRes`. The handler has no
`try`/`except`: a search failure propagates to the HTTP layer. -/
def handle_message (llm : String → String → String)
    (searchRes : Except String (List KCandidate))
    (req : MessageRequest) : Except String String :=
  if containsSub (("livraison") : String).toList (pyLower req.content) ||
      containsSub (("retour") : String).toList (pyLower req.content) then
    .ok (llm ("FAQ_SYSTEM_PROMPT") req.content)
  else
    match searchRes with
    | .error e => .error e
    | .ok chunks =>
      .ok (llm (("Use this context:\n") ++ format_rag_context chunks) req.content)

/-- Body of a successful widget fetch of `/api/v1/playground/message`:
HTTP `ok` flag and the parsed JSON fields read by `sendMessage`. -/
structure WidgetResponse where
  ok : Bool
  response : Option String
deriving DecidableEq

/-- Fallback text the widget shows when the fetch fails or the response is
not ok (`catch` branch of `sendMessage` in `src/unnamed/part_002`). -/
def WIDGET_FALLBACK : String :=
  "Désolé, j\x27ai des problèmes de connexion. Veuillez réessayer plus tard."

/-- Fallback text the widget shows when the response body carries no
truthy `response` field (`data.response || ...` in `sendMessage`). -/
def WIDGET_EMPTY_RESPONSE : String := "Désolé, je n\x27ai pas pu traiter cela."

/-- Embedding of the user-visible outcome of `sendMessage` from the chat
widget in `src/unnamed/part_002` (lines 552-592): the text added as the
assistant message. A network error or a non-ok HTTP status both land in
the `catch` branch showing the fixed fallback; otherwise
`data.response || <empty-response text>` is shown, where
JavaScript `||` also rejects an empty string. -/
def widget_send_message (fetchResult : Except String WidgetResponse) : String :=
  match fetchResult with
  | .error _ => WIDGET_FALLBACK
  | .ok r =>
    if r.ok then
      match r.response with
      | some s => if s = ("") then WIDGET_EMPTY_RESPONSE else s
      | none => WIDGET_EMPTY_RESPONSE
    else WIDGET_FALLBACK

/-- Model of the Python slice index resolution for `s[a:b]` on a sequence of
length `n`: a negative index counts from the end and clamps at 0, a
nonnegative one clamps at `n`. -/
def pyIdx (n : Nat) (i : Int) : Nat :=
  if i < 0 then ((n : Int) + i).toNat else min i.toNat n

/-- Model of the Python slice `s[a:b]` on a character list. -/
def pySlice (s : List Char) (a b : Int) : List Char :=
  (s.take (pyIdx s.length b)).drop (pyIdx s.length a)

/-- Model of the Python `str.strip()`: remove leading and trailing
whitespace. -/
def pyStrip (s : List Char) : List Char :=
  ((s.dropWhile Char.isWhitespace).reverse.dropWhile Char.isWhitespace).reverse

/-- Embedding of the `while start < len(text)` loop of `chunk_text` from
`rag_pipeline.md` (lines 547-562), made total with explicit fuel: `none`
means the loop was still running when the fuel ran out, so Python-level
non-termination is `none` for every fuel. Each iteration takes the slice
`text[start:start+chunk_size]`, appends its `strip()` when that is
non-empty, and advances `start` by `chunk_size - overlap` (a Python int,
so possibly non-positive, hence `start : Int`). -/
def chunk_text_loop (text : List Char) (chunk_size overlap : Int) :
    Nat → Int → Option (List (List Char))
  | 0, start => if start < (text.length : Int) then none else some []
  | fuel + 1, start =>
    if start < (text.length : Int) then
      let c := pyStrip (pySlice text start (start + chunk_size))
      match chunk_text_loop text chunk_size overlap fuel (start + (chunk_size - overlap)) with
      | none => none
      | some rest => some (if c.isEmpty then rest else c :: rest)
    else some []

/-- Embedding of `chunk_text` from `rag_pipeline.md` (lines 547-562),
running the loop from `start = 0` with fuel `len(text) + 1`, which
suffices whenever `overlap < chunk_size` (the loop advances by at least
one each iteration). -/
def chunk_text (text : List Char) (chunk_size overlap : Int) : List (List Char) :=
  (chunk_text_loop text chunk_size overlap (text.length + 1) 0).getD []

/-- Companion loop producing the raw, unstripped windows
`text[start:start+chunk_size]` that `chunk_text_loop` visits, with the
same fuel discipline. -/
def raw_windows_loop (text : List Char) (chunk_size overlap : Int) :
    Nat → Int → Option (List (List Char))
  | 0, start => if start < (text.length : Int) then none else some []
  | fuel + 1, start =>
    if start < (text.length : Int) then
      match raw_windows_loop text chunk_size overlap fuel (start + (chunk_size - overlap)) with
      | none => none
      | some rest => some (pySlice text start (start + chunk_size) :: rest)
    else some []

/-- Raw windows of `chunk_text`, i.e. the slices it takes before
stripping and dropping. -/
def raw_windows (text : List Char) (chunk_size overlap : Int) : List (List Char) :=
  (raw_windows_loop text chunk_size overlap (text.length + 1) 0).getD []

/-- Overlap-aware concatenation of a window list: keep the first window
whole and drop the first `ov` characters of every later window. When the
windows step by `size - ov` this reglues consecutive windows without
repeating the shared overlap. -/
def overlapJoin (ov : Nat) : List (List Char) → List Char
  | [] => []
  | w :: ws => w ++ (ws.map (List.drop ov)).flatten

/-! ### Properties of the stable descending sort -/

/-- Totality and transitivity of the descending-score comparison, packaged
for `List.sorted_insertionSort`. -/
theorem scoreGE_total (key : α → ℚ) : IsTotal α (scoreGE key) :=
  ⟨fun a b => le_total (key b) (key a)⟩

theorem scoreGE_trans (key : α → ℚ) : IsTrans α (scoreGE key) :=
  ⟨fun _ _ _ hab hbc => le_trans hbc hab⟩

theorem pySortDesc_pairwise (key : α → ℚ) (l : List α) :
    List.Pairwise (scoreGE key) (pySortDesc key l) := by
  haveI := scoreGE_total key
  haveI := scoreGE_trans key
  exact List.sorted_insertionSort (scoreGE key) l

theorem pySortDesc_perm (key : α → ℚ) (l : List α) :
    (pySortDesc key l).Perm l :=
  List.perm_insertionSort (scoreGE key) l

/-- C9: score-based reranking is a descending total order. The output of
`rerank_by_score` has length at most `topK`, is pairwise descending by
score (so of two candidates both present, the higher-scored one appears
first), and is the length-`topK` front of a descending-sorted permutation
of the input candidates. -/
theorem rerank_by_score_descending_total_order (chunks : List Candidate) (top_k : Nat) :
    (rerank_by_score chunks top_k).length ≤ top_k ∧
    List.Pairwise (scoreGE (fun c => c.score)) (rerank_by_score chunks top_k) ∧
    ∃ l, chunks.Perm l ∧ List.Pairwise (scoreGE (fun c => c.score)) l ∧
      rerank_by_score chunks top_k = l.take top_k := by
  refine ⟨List.length_take_le _ _, ?_, ?_⟩
  · exact List.Pairwise.sublist (List.take_sublist _ _)
      (pySortDesc_pairwise (fun c => c.score) chunks)
  · exact ⟨pySortDesc (fun c => c.score) chunks,
      (pySortDesc_perm (fun c => c.score) chunks).symm,
      pySortDesc_pairwise (fun c => c.score) chunks, rfl⟩

/-! ### Tenant isolation of the search functions -/

/-- Every hit returned by the modelled Qdrant search is a stored point of
the index that satisfies the search filter. -/
theorem mem_qdrant_client_search {index : List QdrantPoint} {sim : QdrantPoint → ℚ}
    {flt : QdrantPoint → Bool} {limit : Nat} {h : ScoredPoint}
    (hm : h ∈ qdrant_client_search index sim flt limit) :
    h.point ∈ index ∧ flt h.point = true := by
  unfold qdrant_client_search at hm
  have hm2 := List.mem_of_mem_take hm
  have hm3 := ((pySortDesc_perm (fun s : ScoredPoint => s.score) _).mem_iff).mp hm2
  rcases List.mem_map.mp hm3 with ⟨p, hp, hpe⟩
  rcases List.mem_filter.mp hp with ⟨hpi, hpf⟩
  subst hpe
  exact ⟨hpi, hpf⟩

/-- C1: tenant isolation. Every candidate returned by `search_qdrant`
(and by `search_knowledge`) is derived from a stored point whose
`tenant_id` equals the requesting tenant, whatever the index contents —
in particular no candidate of a different tenant is ever returned. -/
theorem retrieval_tenant_isolation :
    (∀ (sim : String → QdrantPoint → ℚ) (index : List QdrantPoint)
        (query tenant_id : String) (top_k : Nat) (c : Candidate),
        c ∈ search_qdrant sim index query tenant_id top_k →
        ∃ p, p ∈ index ∧ p.tenant_id = tenant_id ∧ p.id = c.id) ∧
    (∀ (sim : String → QdrantPoint → ℚ) (index : List QdrantPoint)
        (query tenant_id : String) (top_k : Nat) (c : KCandidate),
        c ∈ search_knowledge sim index query tenant_id top_k →
        ∃ p, p ∈ index ∧ p.tenant_id = tenant_id ∧
          p.content = c.content ∧ p.metadata = c.metadata) := by
  constructor
  · intro sim index query tenant_id top_k c hc
    unfold search_qdrant at hc
    rcases List.mem_map.mp hc with ⟨h, hh, hhe⟩
    rcases mem_qdrant_client_search hh with ⟨hpi, hpf⟩
    simp only [Bool.and_eq_true, Bool.or_eq_true, beq_iff_eq] at hpf
    refine ⟨h.point, hpi, hpf.1, ?_⟩
    rw [← hhe]
  · intro sim index query tenant_id top_k c hc
    unfold search_knowledge at hc
    rcases List.mem_map.mp hc with ⟨h, hh, hhe⟩
    rcases mem_qdrant_client_search hh with ⟨hpi, hpf⟩
    simp only [beq_iff_eq] at hpf
    refine ⟨h.point, hpi, hpf, ?_, ?_⟩ <;> rw [← hhe]

/-- Empty metadata used by the concrete witnesses. -/
def wMeta : Metadata := ⟨none, none⟩

/-- Concrete mixed-tenant index: one document chunk of tenant `t1` and one
of tenant `t2`. -/
def wP1 : QdrantPoint := ⟨"p1", "t1", "document", "s1", "alpha", wMeta⟩

def wP2 : QdrantPoint := ⟨"p2", "t2", "document", "s2", "beta", wMeta⟩

def wIdx : List QdrantPoint := [wP1, wP2]

/-- Constant similarity used by the witnesses. -/
def wSim : String → QdrantPoint → ℚ := fun _ _ => 1

def wCand : Candidate := ⟨"p1", "alpha", 1, "document", wMeta⟩

/-- Witness for C1: on the mixed-tenant index `wIdx`, the candidate
returned for tenant `t1` is `wCand`, and the theorem produces its source
point with tenant `t1`. -/
theorem retrieval_tenant_isolation_witness :
    (wCand ∈ search_qdrant wSim wIdx ("q") ("t1") 5) ∧
    (∃ p, p ∈ wIdx ∧ p.tenant_id = ("t1") ∧ p.id = wCand.id) :=
  ⟨by decide, retrieval_tenant_isolation.1 wSim wIdx ("q") ("t1") 5 wCand (by decide)⟩

/-! ### Deduplication by chunk id keeps the last score, not the max -/

/-- Folding one more candidate into the dict model. -/
theorem dedupById_append_single (l : List Candidate) (c : Candidate) :
    dedupById (l ++ [c]) = dictInsert (dedupById l) c := by
  simp [dedupById, List.foldl_append]

/-- Characterization of the dict-comprehension deduplication: looking up a
chunk id in the deduplicated list yields exactly the LAST candidate with
that id from the input list — the value written by the last variant
processed, not the one with the maximal score. -/
theorem dedupById_find? (l : List Candidate) (i : String) :
    (dedupById l).find? (fun c => c.id == i) =
      (l.filter (fun c => c.id == i)).getLast? := by
  induction l using List.reverseRecOn with
  | nil => rfl
  | append_singleton l c ih =>
    rw [dedupById_append_single, List.filter_append]
    unfold dictInsert
    by_cases hp : (dedupById l).any (fun x => x.id == c.id)
    · rw [if_pos hp]
      rw [List.find?_map]
      have hcong : ((fun x : Candidate => x.id == i) ∘
          fun x => if (x.id == c.id) = true then c else x) =
          fun x : Candidate => x.id == i := by
        funext x
        by_cases hx : x.id = c.id <;> simp [Function.comp, hx]
      rw [hcong]
      by_cases hc : c.id = i
      · have hfc : List.filter (fun x => x.id == i) [c] = [c] := by simp [hc]
        rw [hfc, List.getLast?_concat]
        have hex : ∃ x ∈ dedupById l, (fun x : Candidate => x.id == i) x = true := by
          rcases List.any_eq_true.mp hp with ⟨x, hx, hxe⟩
          exact ⟨x, hx, by simp only [beq_iff_eq] at hxe ⊢; rw [hxe, hc]⟩
        rcases Option.isSome_iff_exists.mp (List.find?_isSome.mpr hex) with ⟨x, hfind⟩
        have px := List.find?_some hfind
        simp only [beq_iff_eq] at px
        rw [hfind]
        simp [px, hc]
      · have hfc : List.filter (fun x => x.id == i) [c] = [] := by simp [hc]
        rw [hfc, List.append_nil, ← ih]
        cases hfind : (dedupById l).find? (fun x => x.id == i) with
        | none => simp
        | some x =>
          have px := List.find?_some hfind
          simp only [beq_iff_eq] at px
          have : x.id ≠ c.id := by rw [px]; exact fun hh => hc hh.symm
          simp [this]
    · rw [if_neg hp, List.find?_append]
      by_cases hc : c.id = i
      · have hnone : (dedupById l).find? (fun x => x.id == i) = none := by
          rw [List.find?_eq_none]
          intro x hx hpx
          simp only [beq_iff_eq] at hpx
          exact hp (List.any_eq_true.mpr ⟨x, hx, by simp [hpx, hc]⟩)
        have hfc : List.filter (fun x => x.id == i) [c] = [c] := by simp [hc]
        rw [hnone, hfc, List.getLast?_concat]
        simp [List.find?, hc]
      · have hfc : List.filter (fun x => x.id == i) [c] = [] := by simp [hc]
        rw [hfc, List.append_nil, ← ih]
        have hcf : (c.id == i) = false := by simp [hc]
        simp [List.find?, hcf]

/-- C2 (amended): for every list of per-variant search results, the merge
step, deduplicating by `chunkId`, retains for each id the candidate (and
hence the score) of its LAST occurrence in the concatenated results — the
last variant processed that returned it — not the maximum score across
variants. -/
theorem multi_query_dedup_keeps_last_score
    (results : List (List Candidate)) (i : String) :
    (dedupById results.flatten).find? (fun c => c.id == i) =
      (results.flatten.filter (fun c => c.id == i)).getLast? :=
  dedupById_find? results.flatten i

/-- Similarity function for the C2 counterexample: the chunk scores 9
against variant `q1` and 5 against variant `q2`. -/
def cSim : String → QdrantPoint → ℚ := fun q _ => if q == ("q1") then 9 else 5

/-- Single-tenant index with one chunk `A` for the C2 counterexample. -/
def cIdx : List QdrantPoint := [⟨"A", "t1", "document", "s", "txt", wMeta⟩]

/-- Counterexample to C2 as stated: chunk `A` is returned by variant `q1`
with score 9 (the maximum across variants) and by variant `q2` with score
5, yet the merged result retains score 5 — the score of the last variant
processed, not the maximum. -/
theorem multi_query_dedup_not_max_counterexample :
    (search_qdrant cSim cIdx ("q1") ("t1") 5).map (fun c => c.score) = [9] ∧
    (search_qdrant cSim cIdx ("q2") ("t1") 5).map (fun c => c.score) = [5] ∧
    (multi_query_search cSim cIdx [("q1"), ("q2")] ("t1")).map (fun c => c.score) = [5] ∧
    (5 : ℚ) ≠ 9 := by
  refine ⟨by decide, by decide, by decide, by norm_num⟩

/-! ### Query expander: parse failures propagate -/

/-- Counterexample to C3 as stated: when parsing the generator output
fails, `generate_query_variants` raises (the error propagates); it does
not degrade to the original query alone. -/
theorem query_expander_not_fail_open_counterexample :
    generate_query_variants ("q") (.error ("JSONDecodeError")) =
      .error ("JSONDecodeError") ∧
    generate_query_variants ("q") (.error ("JSONDecodeError")) ≠
      .ok [("q")] := by
  refine ⟨rfl, fun h => Except.noConfusion h⟩

/-- C3 (amended): `generate_query_variants` propagates a parse failure of
the generator output unchanged (it raises rather than degrading), and on
success the original query is always the first element of the returned
combined list. -/
theorem query_expander_error_propagation :
    (∀ (q e : String), generate_query_variants q (.error e) = .error e) ∧
    (∀ (q : String) (r : Except String (List String)) (vs : List String),
      generate_query_variants q r = .ok vs → vs.head? = some q) := by
  constructor
  · intro q e
    rfl
  · intro q r vs h
    cases r with
    | error e => exact absurd h (by simp [generate_query_variants])
    | ok v =>
      simp only [generate_query_variants] at h
      cases h
      rfl

/-- Witness for C3 (amended), applying the theorem at a concrete parse
success. -/
theorem query_expander_error_propagation_witness :
    generate_query_variants ("a") (.ok [("b")]) = .ok [("a"), ("b")] ∧
    (([("a"), ("b")] : List String).head? = some ("a")) :=
  ⟨rfl, query_expander_error_propagation.2 ("a") (.ok [("b")]) [("a"), ("b")] rfl⟩

/-! ### Model-based reranker: no validation, no fallback -/

/-- Every error `pyGet` raises is the `IndexError`. -/
theorem pyGet_error_eq {l : List α} {i : Int} {e : String}
    (h : pyGet l i = .error e) : e = ("IndexError") := by
  unfold pyGet at h
  split at h
  · exact absurd h (by simp)
  · split at h
    · exact absurd h (by simp)
    · cases h
      rfl

/-- An index outside the Python range `[-len, len)` makes `pyGet`
raise. -/
theorem pyGet_out_of_range {l : List α} {i : Int}
    (h : (l.length : Int) ≤ i ∨ i < -(l.length : Int)) :
    pyGet l i = .error ("IndexError") := by
  unfold pyGet
  rw [dif_neg (by omega), dif_neg (by omega)]

/-- A list of indices containing one that raises makes the whole
comprehension raise. -/
theorem pyGetAll_error (chunks : List Candidate) :
    ∀ (l : List Int), (∃ i ∈ l, pyGet chunks i = .error ("IndexError")) →
      pyGetAll chunks l = .error ("IndexError") := by
  intro l
  induction l with
  | nil => rintro ⟨i, hi, _⟩; cases hi
  | cons j js ih =>
    rintro ⟨i, hi, hierr⟩
    unfold pyGetAll
    cases hj : pyGet chunks j with
    | error e =>
      obtain rfl := pyGet_error_eq hj
      simp [hj]
    | ok c =>
      rcases List.mem_cons.mp hi with rfl | hi2
      · rw [hj] at hierr
        cases hierr
      · rw [ih ⟨i, hi2, hierr⟩]

/-- Concrete candidate used by the reranker counterexample and witness. -/
def wChunkA : Candidate := ⟨"A", "ca", 1, "document", wMeta⟩

/-- Counterexample to C4 as stated: with one candidate and the model
answering the out-of-range index 5, `rerank_with_llm` raises `IndexError`
instead of falling back to the score-based reranking `[wChunkA]`. -/
theorem reranker_no_fallback_counterexample :
    rerank_with_llm [wChunkA] 3 (.ok [5]) = .error ("IndexError") ∧
    rerank_by_score [wChunkA] 3 = [wChunkA] ∧
    rerank_with_llm [wChunkA] 3 (.ok [5]) ≠ .ok (rerank_by_score [wChunkA] 3) := by
  refine ⟨rfl, by decide, ?_⟩
  intro h
  rw [show rerank_with_llm [wChunkA] 3 (.ok [5]) = .error ("IndexError") from rfl] at h
  exact Except.noConfusion h

/-- C4 (amended): `rerank_with_llm` performs no validation and has no
fallback. A parse failure of the model output propagates unchanged; an
index outside the Python range of the candidate list raises `IndexError`;
and duplicate indices are accepted, duplicating candidates in the
output. -/
theorem reranker_error_propagation_no_validation :
    (∀ (chunks : List Candidate) (k : Nat) (e : String),
      rerank_with_llm chunks k (.error e) = .error e) ∧
    (∀ (chunks : List Candidate) (k : Nat) (idxs : List Int) (i : Int),
      i ∈ idxs.take k →
      ((chunks.length : Int) ≤ i ∨ i < -(chunks.length : Int)) →
      rerank_with_llm chunks k (.ok idxs) = .error ("IndexError")) ∧
    (∀ c0 c1 : Candidate,
      rerank_with_llm [c0, c1] 3 (.ok [0, 0, 0]) = .ok [c0, c0, c0]) := by
  refine ⟨fun _ _ _ => rfl, ?_, ?_⟩
  · intro chunks k idxs i hi hrange
    unfold rerank_with_llm
    exact pyGetAll_error chunks (idxs.take k) ⟨i, hi, pyGet_out_of_range hrange⟩
  · intro c0 c1
    rfl

/-- Witness for C4 (amended): a parse failure propagates, the concrete
out-of-range index 1 on a one-element candidate list raises, and a
duplicated index duplicates the candidate. -/
theorem reranker_error_propagation_witness :
    rerank_with_llm [wChunkA] 3 (.error ("boom")) = .error ("boom") ∧
    ((1 : Int) ∈ ([1] : List Int).take 3 ∧
      (((([wChunkA] : List Candidate).length : Int) ≤ 1) ∨
        (1 : Int) < -(([wChunkA] : List Candidate).length : Int)) ∧
      rerank_with_llm [wChunkA] 3 (.ok [1]) = .error ("IndexError")) ∧
    rerank_with_llm [wChunkA, wChunkA] 3 (.ok [0, 0, 0]) =
      .ok [wChunkA, wChunkA, wChunkA] :=
  ⟨reranker_error_propagation_no_validation.1 [wChunkA] 3 ("boom"),
   ⟨by decide, by decide,
    reranker_error_propagation_no_validation.2.1 [wChunkA] 3 [1] 1
      (by decide) (by decide)⟩,
   reranker_error_propagation_no_validation.2.2 wChunkA wChunkA⟩

/-! ### Pipeline errors: backend raises, widget shows the fallback -/

/-- Request and trivial LLM used by the C7 counterexample. -/
def cReq : MessageRequest := ⟨"hello", "t1"⟩

def cLLM : String → String → String := fun _ u => u

/-- Counterexample to C7 as stated: when the knowledge search is
unreachable, the backend message handler raises (HTTP 500); it does not
return the fixed fallback text — in particular not the widget fallback
text — to its caller. -/
theorem handler_raises_on_search_failure_counterexample :
    handle_message cLLM (.error ("IndexUnavailable")) cReq =
      .error ("IndexUnavailable") ∧
    handle_message cLLM (.error ("IndexUnavailable")) cReq ≠
      .ok WIDGET_FALLBACK := by
  constructor
  · rfl
  · intro h
    rw [show handle_message cLLM (.error ("IndexUnavailable")) cReq =
      .error ("IndexUnavailable") from rfl] at h
    exact Except.noConfusion h

/-- C7 (amended): a failure of the knowledge search propagates out of the
backend handler (for any message that does not hit the keyword FAQ
branch), so the handler raises rather than returning a fallback; the
end user still never sees a raw error, because the widget method `sendMessage`
catches both network failures and non-ok HTTP responses and displays the
fixed fallback text. -/
theorem pipeline_error_fallback_via_widget :
    (∀ (llm : String → String → String) (e : String) (req : MessageRequest),
      containsSub (("livraison") : String).toList (pyLower req.content) = false →
      containsSub (("retour") : String).toList (pyLower req.content) = false →
      handle_message llm (.error e) req = .error e) ∧
    (∀ e : String, widget_send_message (.error e) = WIDGET_FALLBACK) ∧
    (∀ r : WidgetResponse, r.ok = false →
      widget_send_message (.ok r) = WIDGET_FALLBACK) := by
  refine ⟨?_, fun _ => rfl, ?_⟩
  · intro llm e req h1 h2
    unfold handle_message
    rw [h1, h2]
    rfl
  · intro r hr
    simp [widget_send_message, hr]

/-- Witness for C7 (amended): the concrete message `"hello"` misses both
keywords, the handler propagates the search error, and the widget shows
the fallback on a failed fetch and on an HTTP 500 response. -/
theorem pipeline_error_fallback_via_widget_witness :
    (containsSub (("livraison") : String).toList (pyLower ("hello")) = false ∧
      containsSub (("retour") : String).toList (pyLower ("hello")) = false ∧
      handle_message cLLM (.error ("boom")) ⟨"hello", "t1"⟩ = .error ("boom")) ∧
    widget_send_message (.error ("ECONNREFUSED")) = WIDGET_FALLBACK ∧
    ((⟨false, some ("oops")⟩ : WidgetResponse).ok = false ∧
      widget_send_message (.ok ⟨false, some ("oops")⟩) = WIDGET_FALLBACK) :=
  ⟨⟨by decide, by decide,
    pipeline_error_fallback_via_widget.1 cLLM ("boom") ⟨"hello", "t1"⟩
      (by decide) (by decide)⟩,
   pipeline_error_fallback_via_widget.2.1 ("ECONNREFUSED"),
   ⟨rfl, pipeline_error_fallback_via_widget.2.2 ⟨false, some ("oops")⟩ rfl⟩⟩

/-! ### Context formatter contract -/

/-- Length of the enumeration loop of `format_rag_context`. -/
theorem contextParts_length (chunks : List KCandidate) :
    ∀ i : Nat, (contextParts i chunks).length = chunks.length := by
  induction chunks with
  | nil => intro i; rfl
  | cons c rest ih =>
    intro i
    simp [contextParts, ih]

/-- Element `j` of the enumeration loop started at `i` is the block of the
`j`-th chunk labelled `i + j`. -/
theorem contextParts_get (chunks : List KCandidate) :
    ∀ (i j : Nat) (h : j < (contextParts i chunks).length)
      (h2 : j < chunks.length),
      (contextParts i chunks).get ⟨j, h⟩ = contextBlock (i + j) (chunks.get ⟨j, h2⟩) := by
  induction chunks with
  | nil => intro i j h h2; cases h2
  | cons c rest ih =>
    intro i j h h2
    cases j with
    | zero => rfl
    | succ j =>
      have h3 : j < (contextParts (i + 1) rest).length := by
        rw [contextParts_length]
        exact Nat.lt_of_succ_lt_succ h2
      have := ih (i + 1) j h3 (Nat.lt_of_succ_lt_succ h2)
      simp only [contextParts, List.get_cons_succ]
      rw [this]
      congr 1
      omega

/-- C8: `format_rag_context` returns the empty string on the empty list,
and otherwise joins, with the fixed separator, one labelled block
`Source N: <source>\n<text>` per candidate, numbered from 1 in exactly
the input order (it is a Lean function, hence pure and deterministic). -/
theorem format_rag_context_contract :
    format_rag_context [] = ("") ∧
    (∀ chunks : List KCandidate, (contextParts 1 chunks).length = chunks.length) ∧
    (∀ (chunks : List KCandidate) (j : Nat) (h : j < (contextParts 1 chunks).length)
      (h2 : j < chunks.length),
      (contextParts 1 chunks).get ⟨j, h⟩ =
        contextBlock (j + 1) (chunks.get ⟨j, h2⟩)) ∧
    (∀ chunks : List KCandidate, chunks ≠ [] →
      format_rag_context chunks =
        String.intercalate contextSep (contextParts 1 chunks)) := by
  refine ⟨rfl, fun chunks => contextParts_length chunks 1, ?_, ?_⟩
  · intro chunks j h h2
    rw [contextParts_get chunks 1 j h h2]
    congr 1
    omega
  · intro chunks hne
    unfold format_rag_context
    rw [if_neg (by simp [List.isEmpty_iff, hne])]

/-- Two concrete candidates for the C8 witness. -/
def wK1 : KCandidate := ⟨"chunk one", 1, "document", ⟨none, some ("doc.pdf")⟩⟩

def wK2 : KCandidate := ⟨"chunk two", 2, "website", ⟨some ("http://x"), none⟩⟩

/-- Witness for C8: on a concrete two-candidate list the second block is
labelled `Source 2` with the source and text of the second candidate, in input
order, and the join uses the fixed separator. -/
theorem format_rag_context_contract_witness :
    format_rag_context [] = ("") ∧
    ((1 : Nat) < (contextParts 1 [wK1, wK2]).length ∧
      (1 : Nat) < ([wK1, wK2] : List KCandidate).length ∧
      (contextParts 1 [wK1, wK2]).get ⟨1, by decide⟩ =
        contextBlock 2 (([wK1, wK2] : List KCandidate).get ⟨1, by decide⟩)) ∧
    (([wK1, wK2] : List KCandidate) ≠ [] ∧
      format_rag_context [wK1, wK2] =
        String.intercalate contextSep (contextParts 1 [wK1, wK2])) :=
  ⟨format_rag_context_contract.1,
   ⟨by decide, by decide,
    format_rag_context_contract.2.2.1 [wK1, wK2] 1 (by decide) (by decide)⟩,
   ⟨by decide, format_rag_context_contract.2.2.2 [wK1, wK2] (by decide)⟩⟩

/-! ### Chunker: windows, stripping, reconstruction, termination -/

/-- Python slicing with nonnegative bounds is drop-then-take. -/
theorem pySlice_nonneg (s : List Char) (a b : Int) (ha : 0 ≤ a) (hb : 0 ≤ b) :
    pySlice s a b = (s.drop a.toNat).take (b.toNat - a.toNat) := by
  unfold pySlice pyIdx
  rw [if_neg (by omega), if_neg (by omega)]
  rcases le_or_lt (s.length) a.toNat with h | h
  · rw [min_eq_right h]
    rw [List.drop_eq_nil_of_le (by simp [List.length_take_le]),
      List.drop_eq_nil_of_le h]
    simp
  · rw [min_eq_left (le_of_lt h), List.drop_take]
    rw [List.take_eq_take]
    simp only [List.length_drop]
    omega

/-- With `overlap < chunk_size`, fuel covering the remaining length makes
the raw-window loop finish: the start index strictly increases each
iteration. -/
theorem raw_windows_loop_isSome (text : List Char) (chunk_size overlap : Int)
    (h1 : overlap < chunk_size) :
    ∀ (fuel : Nat) (start : Int), (text.length : Int) ≤ start + fuel →
      (raw_windows_loop text chunk_size overlap fuel start).isSome := by
  intro fuel
  induction fuel with
  | zero =>
    intro start h
    unfold raw_windows_loop
    rw [if_neg (by omega)]
    rfl
  | succ n ih =>
    intro start h
    unfold raw_windows_loop
    by_cases hc : start < (text.length : Int)
    · rw [if_pos hc]
      have hrec := ih (start + (chunk_size - overlap)) (by omega)
      cases hmatch : raw_windows_loop text chunk_size overlap n (start + (chunk_size - overlap)) with
      | none => rw [hmatch] at hrec; cases hrec
      | some ws => simp
    · rw [if_neg hc]
      rfl

/-- The chunking loop is the raw-window loop followed by stripping each
window and dropping the whitespace-only ones. -/
theorem chunk_text_loop_eq_raw (text : List Char) (chunk_size overlap : Int) :
    ∀ (fuel : Nat) (start : Int),
      chunk_text_loop text chunk_size overlap fuel start =
        (raw_windows_loop text chunk_size overlap fuel start).map
          (fun ws => (ws.map pyStrip).filter (fun c => !c.isEmpty)) := by
  intro fuel
  induction fuel with
  | zero =>
    intro start
    unfold chunk_text_loop raw_windows_loop
    by_cases hc : start < (text.length : Int) <;> simp [hc]
  | succ n ih =>
    intro start
    unfold chunk_text_loop raw_windows_loop
    by_cases hc : start < (text.length : Int)
    · simp only [if_pos hc, ih]
      cases hmatch : raw_windows_loop text chunk_size overlap n (start + (chunk_size - overlap)) with
      | none => simp [hmatch]
      | some ws =>
        simp only [hmatch, Option.map_some]
        by_cases he : (pyStrip (pySlice text start (start + chunk_size))).isEmpty <;>
          simp [List.filter, he]
    · simp [hc]

/-- Full characterization of a finished raw-window loop: the `i`-th window
produced from `start` is the slice at `start + i * (chunk_size - overlap)`,
every produced window starts before the end of the text, and the loop
stops only once the next start is past the end. -/
theorem raw_windows_loop_spec (text : List Char) (chunk_size overlap : Int) :
    ∀ (fuel : Nat) (start : Int) (ws : List (List Char)),
      raw_windows_loop text chunk_size overlap fuel start = some ws →
      ((∀ (i : Nat) (h : i < ws.length),
          ws.get ⟨i, h⟩ = pySlice text (start + i * (chunk_size - overlap))
            (start + i * (chunk_size - overlap) + chunk_size)) ∧
       (text.length : Int) ≤ start + ws.length * (chunk_size - overlap) ∧
       (∀ i : Nat, i < ws.length →
          start + i * (chunk_size - overlap) < (text.length : Int))) := by
  intro fuel
  induction fuel with
  | zero =>
    intro start ws hws
    unfold raw_windows_loop at hws
    by_cases hc : start < (text.length : Int)
    · rw [if_pos hc] at hws; cases hws
    · rw [if_neg hc] at hws
      cases hws
      refine ⟨fun i h => absurd h (by simp), by simpa using not_lt.mp hc,
        fun i h => absurd h (by simp)⟩
  | succ n ih =>
    intro start ws hws
    unfold raw_windows_loop at hws
    by_cases hc : start < (text.length : Int)
    · rw [if_pos hc] at hws
      cases hmatch : raw_windows_loop text chunk_size overlap n
          (start + (chunk_size - overlap)) with
      | none => rw [hmatch] at hws; cases hws
      | some rest =>
        rw [hmatch] at hws
        cases hws
        rcases ih (start + (chunk_size - overlap)) rest hmatch with ⟨hget, hlen, hlt⟩
        refine ⟨?_, ?_, ?_⟩
        · intro i h
          cases i with
          | zero => simp
          | succ i =>
            rw [List.get_cons_succ, hget i (Nat.lt_of_succ_lt_succ h)]
            have harg : start + (chunk_size - overlap) + (i : Int) * (chunk_size - overlap)
                = start + ((i + 1 : Nat) : Int) * (chunk_size - overlap) := by
              push_cast; ring
            rw [harg]
        · have := hlen
          have hcast : ((rest.length + 1 : Nat) : Int) = (rest.length : Int) + 1 := by
            push_cast; ring
          calc (text.length : Int)
              ≤ start + (chunk_size - overlap) + rest.length * (chunk_size - overlap) := this
            _ = start + ((rest.length : Int) + 1) * (chunk_size - overlap) := by ring
            _ = start + ((rest.length + 1 : Nat) : Int) * (chunk_size - overlap) := by
                rw [hcast]
          
        · intro i h
          cases i with
          | zero => simpa using hc
          | succ i =>
            have := hlt i (Nat.lt_of_succ_lt_succ h)
            calc start + ((i + 1 : Nat) : Int) * (chunk_size - overlap)
                = start + (chunk_size - overlap) + (i : Int) * (chunk_size - overlap) := by
                  push_cast; ring
              _ < (text.length : Int) := this
    · rw [if_neg hc] at hws
      cases hws
      refine ⟨fun i h => absurd h (by simp), by simpa using not_lt.mp hc,
        fun i h => absurd h (by simp)⟩

/-- Regluing a finished raw-window loop: dropping the first `overlap`
characters of every window and concatenating yields exactly the text from
position `start + overlap` on. -/
theorem raw_windows_loop_drop_flatten (text : List Char) (chunk_size overlap : Int)
    (h0 : 0 ≤ overlap) (h1 : overlap < chunk_size) :
    ∀ (fuel : Nat) (start : Int) (ws : List (List Char)), 0 ≤ start →
      raw_windows_loop text chunk_size overlap fuel start = some ws →
      (ws.map (List.drop overlap.toNat)).flatten =
        text.drop (start.toNat + overlap.toNat) := by
  intro fuel
  induction fuel with
  | zero =>
    intro start ws hstart hws
    unfold raw_windows_loop at hws
    by_cases hc : start < (text.length : Int)
    · rw [if_pos hc] at hws; cases hws
    · rw [if_neg hc] at hws
      cases hws
      simp only [List.map_nil, List.flatten_nil]
      exact (List.drop_eq_nil_of_le (by omega)).symm
  | succ n ih =>
    intro start ws hstart hws
    unfold raw_windows_loop at hws
    by_cases hc : start < (text.length : Int)
    · rw [if_pos hc] at hws
      cases hmatch : raw_windows_loop text chunk_size overlap n
          (start + (chunk_size - overlap)) with
      | none => rw [hmatch] at hws; cases hws
      | some rest =>
        rw [hmatch] at hws
        cases hws
        have hrec := ih (start + (chunk_size - overlap)) rest (by omega) hmatch
        simp only [List.map_cons, List.flatten_cons]
        rw [hrec]
        rw [pySlice_nonneg text start (start + chunk_size) hstart (by omega)]
        have h1n : (start + chunk_size).toNat - start.toNat = chunk_size.toNat := by
          omega
        have h2n : (start + (chunk_size - overlap)).toNat =
            start.toNat + (chunk_size - overlap).toNat := by omega
        rw [h1n, h2n, List.drop_take, List.drop_drop]
        have h3n : start.toNat + (chunk_size - overlap).toNat + overlap.toNat =
            (start.toNat + overlap.toNat) + (chunk_size.toNat - overlap.toNat) := by
          omega
        rw [h3n]
        rw [show List.drop (start.toNat + overlap.toNat +
              (chunk_size.toNat - overlap.toNat)) text =
            List.drop (chunk_size.toNat - overlap.toNat)
              (List.drop (start.toNat + overlap.toNat) text) from
          (List.drop_drop _ _ _).symm]
        exact List.take_append_drop _ _
    · rw [if_neg hc] at hws
      cases hws
      simp only [List.map_nil, List.flatten_nil]
      exact (List.drop_eq_nil_of_le (by omega)).symm

/-- With `overlap < chunk_size`, the raw-window loop run by `raw_windows`
finishes and returns it. -/
theorem raw_windows_eq_some (text : List Char) (chunk_size overlap : Int)
    (h1 : overlap < chunk_size) :
    raw_windows_loop text chunk_size overlap (text.length + 1) 0 =
      some (raw_windows text chunk_size overlap) := by
  have h := raw_windows_loop_isSome text chunk_size overlap h1 (text.length + 1) 0
    (by push_cast; omega)
  cases hm : raw_windows_loop text chunk_size overlap (text.length + 1) 0 with
  | none => rw [hm] at h; cases h
  | some ws =>
    unfold raw_windows
    rw [hm]
    rfl

/-- C6 (amended): under `0 ≤ overlap < size`, `chunk_text` visits exactly
the windows `text[start : start+size)` for `start = 0, size-overlap,
2*(size-overlap), ...` until the start passes the end of the text, in
order; it emits the `strip()` of each window, omitting a window exactly
when its strip is empty (the window is whitespace-only). There is no
minimum-length rule beyond that. -/
theorem chunk_text_stepping_and_drop (text : List Char) (chunk_size overlap : Int)
    (h0 : 0 ≤ overlap) (h1 : overlap < chunk_size) :
    (∀ (i : Nat) (h : i < (raw_windows text chunk_size overlap).length),
      (raw_windows text chunk_size overlap).get ⟨i, h⟩ =
        pySlice text ((i : Int) * (chunk_size - overlap))
          ((i : Int) * (chunk_size - overlap) + chunk_size)) ∧
    (text.length : Int) ≤
      (raw_windows text chunk_size overlap).length * (chunk_size - overlap) ∧
    (∀ i : Nat, i < (raw_windows text chunk_size overlap).length →
      (i : Int) * (chunk_size - overlap) < (text.length : Int)) ∧
    chunk_text text chunk_size overlap =
      ((raw_windows text chunk_size overlap).map pyStrip).filter
        (fun c => !c.isEmpty) := by
  have hsome := raw_windows_eq_some text chunk_size overlap h1
  rcases raw_windows_loop_spec text chunk_size overlap (text.length + 1) 0 _ hsome
    with ⟨hget, hlen, hlt⟩
  refine ⟨?_, by simpa using hlen, ?_, ?_⟩
  · intro i h
    have := hget i h
    rwa [zero_add] at this
  · intro i h
    have := hlt i h
    rwa [zero_add] at this
  · unfold chunk_text
    rw [chunk_text_loop_eq_raw, hsome]
    rfl

/-- C5 (amended): under `0 ≤ overlap < size`, the raw (pre-strip) windows
of `chunk_text` reconstruct the text losslessly: keeping the first window
whole and dropping the shared `overlap` prefix of each later window,
their concatenation is exactly `text`. The emitted chunks themselves are
these windows stripped of surrounding whitespace (whitespace-only windows
dropped), so the emitted chunks reconstruct the text only up to that
stripping. -/
theorem chunk_text_windows_reconstruct (text : List Char) (chunk_size overlap : Int)
    (h0 : 0 ≤ overlap) (h1 : overlap < chunk_size) :
    overlapJoin overlap.toNat (raw_windows text chunk_size overlap) = text ∧
    chunk_text text chunk_size overlap =
      ((raw_windows text chunk_size overlap).map pyStrip).filter
        (fun c => !c.isEmpty) := by
  have hsome := raw_windows_eq_some text chunk_size overlap h1
  constructor
  · cases hws : raw_windows text chunk_size overlap with
    | nil =>
      rw [hws] at hsome
      rcases raw_windows_loop_spec text chunk_size overlap (text.length + 1) 0 [] hsome
        with ⟨_, hlen, _⟩
      simp only [List.length_nil, Nat.cast_zero, zero_mul, zero_add] at hlen
      have hzero : text.length = 0 := by omega
      rw [List.length_eq_zero.mp hzero]
      rfl
    | cons w rest =>
      rw [hws] at hsome
      unfold raw_windows_loop at hsome
      by_cases hc : (0 : Int) < (text.length : Int)
      · rw [if_pos hc] at hsome
        cases hmatch : raw_windows_loop text chunk_size overlap text.length
            (0 + (chunk_size - overlap)) with
        | none => rw [hmatch] at hsome; cases hsome
        | some rest2 =>
          rw [hmatch] at hsome
          have hw : pySlice text 0 (0 + chunk_size) = w := by
            injection hsome with hsome2
            injection hsome2
          have hrest : rest2 = rest := by
            injection hsome with hsome2
            injection hsome2
          subst hrest
          have hflat := raw_windows_loop_drop_flatten text chunk_size overlap h0 h1
            text.length (0 + (chunk_size - overlap)) rest2 (by omega) hmatch
          show w ++ (List.map (List.drop overlap.toNat) rest2).flatten = text
          rw [hflat, ← hw]
          rw [pySlice_nonneg text 0 (0 + chunk_size) le_rfl (by omega)]
          have e1 : ((0 : Int) + chunk_size).toNat - (0 : Int).toNat = chunk_size.toNat := by
            omega
          have e2 : ((0 : Int) + (chunk_size - overlap)).toNat + overlap.toNat =
              chunk_size.toNat := by omega
          rw [e1, e2]
          simp only [Int.toNat_zero, List.drop_zero]
          exact List.take_append_drop _ _
      · rw [if_neg hc] at hsome
        cases hsome
  · unfold chunk_text
    rw [chunk_text_loop_eq_raw, hsome]
    rfl

/-- With `chunk_size ≤ overlap` the loop start never increases, so on a
non-empty text the loop condition stays true and no amount of fuel
finishes the loop. -/
theorem chunk_text_loop_stuck (text : List Char) (chunk_size overlap : Int)
    (hso : chunk_size ≤ overlap) (hne : 0 < text.length) :
    ∀ (fuel : Nat) (start : Int), start ≤ 0 →
      chunk_text_loop text chunk_size overlap fuel start = none := by
  intro fuel
  induction fuel with
  | zero =>
    intro start hs
    unfold chunk_text_loop
    rw [if_pos (by omega)]
  | succ n ih =>
    intro start hs
    unfold chunk_text_loop
    rw [if_pos (by omega)]
    simp only [ih (start + (chunk_size - overlap)) (by omega)]

/-- C10: the chunking loop terminates exactly because its start index
strictly increases by `size - overlap` each iteration. Under the specified
precondition `0 ≤ overlap < size`, fuel `len(text) + 1` finishes the loop
on every input; with `overlap ≥ size` the step is non-positive and the
loop never finishes on any non-empty text, whatever the fuel. -/
theorem chunk_text_termination :
    (∀ (text : List Char) (chunk_size overlap : Int),
      0 ≤ overlap → overlap < chunk_size →
      (chunk_text_loop text chunk_size overlap (text.length + 1) 0).isSome) ∧
    (∀ (text : List Char) (chunk_size overlap : Int),
      chunk_size ≤ overlap → text ≠ [] →
      ∀ fuel : Nat, chunk_text_loop text chunk_size overlap fuel 0 = none) := by
  constructor
  · intro text chunk_size overlap _ h1
    rw [chunk_text_loop_eq_raw, raw_windows_eq_some text chunk_size overlap h1]
    rfl
  · intro text chunk_size overlap hso hne fuel
    exact chunk_text_loop_stuck text chunk_size overlap hso
      (List.length_pos.mpr hne) fuel 0 le_rfl

/-- Witness for C10: with `size = 3, overlap = 1` the loop on `"hello"`
finishes within its fuel, while with `size = 2, overlap = 5` it fails to
finish on `"hi"` even with fuel 40. -/
theorem chunk_text_termination_witness :
    ((0 : Int) ≤ 1 ∧ (1 : Int) < 3 ∧
      (chunk_text_loop (("hello") : String).toList 3 1
        ((("hello") : String).toList.length + 1) 0).isSome) ∧
    ((2 : Int) ≤ 5 ∧ (("hi") : String).toList ≠ [] ∧
      chunk_text_loop (("hi") : String).toList 2 5 40 0 = none) :=
  ⟨⟨by norm_num, by norm_num,
    chunk_text_termination.1 (("hello") : String).toList 3 1 (by norm_num) (by norm_num)⟩,
   ⟨by norm_num, by decide,
    chunk_text_termination.2 (("hi") : String).toList 2 5 (by norm_num) (by decide) 40⟩⟩

/-- Counterexample to C5 as stated: on `"a b"` with `size = 2`,
`overlap = 0`, no window is dropped (two windows, two emitted chunks),
yet the overlap-aware concatenation of the emitted chunks is `"ab"`,
not the original `"a b"` — the stripping loses the space. -/
theorem chunk_round_trip_counterexample :
    chunk_text (("a b") : String).toList 2 0 = [[('a')], [('b')]] ∧
    raw_windows (("a b") : String).toList 2 0 = [[('a'), (' ')], [('b')]] ∧
    (chunk_text (("a b") : String).toList 2 0).length =
      (raw_windows (("a b") : String).toList 2 0).length ∧
    overlapJoin 0 (chunk_text (("a b") : String).toList 2 0) = (("ab") : String).toList ∧
    (("ab") : String).toList ≠ (("a b") : String).toList := by
  refine ⟨by decide, by decide, by decide, by decide, by decide⟩

/-- Counterexample to C6 as stated: on `"a b"` with `size = 2`,
`overlap = 0`, the first emitted chunk `"a"` is not one of the windows
(`"a "` and `"b"`), so the output is not the window list with some
windows omitted, under any reading of the drop rule. -/
theorem chunk_not_windows_counterexample :
    chunk_text (("a b") : String).toList 2 0 = [[('a')], [('b')]] ∧
    [('a')] ∉ raw_windows (("a b") : String).toList 2 0 := by
  refine ⟨by decide, by decide⟩

/-- Witness for C5 (amended): the raw windows of `"hello world"` with
`size = 4, overlap = 1` reglue to the original text. -/
theorem chunk_text_windows_reconstruct_witness :
    ((0 : Int) ≤ 1 ∧ (1 : Int) < 4) ∧
    overlapJoin (1 : Int).toNat (raw_windows (("hello world") : String).toList 4 1) =
      (("hello world") : String).toList :=
  ⟨⟨by norm_num, by norm_num⟩,
   (chunk_text_windows_reconstruct (("hello world") : String).toList 4 1
     (by norm_num) (by norm_num)).1⟩

/-- Witness for C6 (amended): on `"hello world"` with `size = 4,
overlap = 1`, `chunk_text` equals the stripped raw windows with the
whitespace-only ones removed. -/
theorem chunk_text_stepping_and_drop_witness :
    ((0 : Int) ≤ 1 ∧ (1 : Int) < 4) ∧
    chunk_text (("hello world") : String).toList 4 1 =
      (((raw_windows (("hello world") : String).toList 4 1).map pyStrip).filter
        (fun c => !c.isEmpty)) :=
  ⟨⟨by norm_num, by norm_num⟩,
   (chunk_text_stepping_and_drop (("hello world") : String).toList 4 1
     (by norm_num) (by norm_num)).2.2.2⟩
